import Mathlib

/-!
Verification development for the korus acoustic-taxonomy engine.

The engine manages a sound-source tree and, per sound source, a
sound-type tree.  Descendant sources inherit the sound types of their
ancestors through a computed effective view.  Taxonomies are persisted
as numbered immutable versions in a version store.

The korus library modules themselves (korus.tree, korus.tax) are not
part of this tree; only the tutorial notebook that exercises them is.
The definitions below are therefore modelled from the specification,
and where the notebook records concrete behaviour (printed node data,
rendered trees) the model follows the notebook output.
-/

namespace Korus

/-- Modelled from the spec: the failure taxonomy of section 7. -/
inductive KError where
  | NotFoundError
  | DuplicateTagError
  | NoSuchParentError
  | HasChildrenError
  | NotSiblingsError
  | TagConflictError
  | ConflictError
deriving Repr, DecidableEq

/-- Modelled from the spec: a value stored in the data mapping of a node.
Either free text (name, description) or the reference to the sound-type
tree bound to a sound-source node, as shown by the notebook output
`\x7b'name': ..., 'sound_types': <korus.tree.KTree object>\x7d`.
The tree itself lives in the side table of the taxonomy. -/
inductive DataVal where
  | s (v : String)
  | soundTypesRef
deriving Repr, DecidableEq

/-- Modelled from the spec: the data mapping built at node creation.
Keys that the caller omits are absent, as in the notebook output where a
node created without a description has no description key. -/
def mkData (name description : Option String) (isSource : Bool) :
    List (String × DataVal) :=
  (match name with
    | some v => [("name", DataVal.s v)]
    | none => []) ++
  (match description with
    | some v => [("description", DataVal.s v)]
    | none => []) ++
  (if isSource then [("sound_types", DataVal.soundTypesRef)] else [])

/-- Modelled from the spec: a tree node with a process-unique id, a tag,
the tag of its parent (the synthetic root tag Unknown when attached at
the top), and the data mapping. -/
structure TNode where
  id : Nat
  tag : String
  parent : String
  data : List (String × DataVal)
deriving Repr, DecidableEq

/-- Name stored in the data mapping of a node, when present. -/
def dataName (d : List (String × DataVal)) : Option String :=
  match d.find? (fun kv => kv.1 == "name") with
  | some (_, DataVal.s v) => some v
  | _ => none

/-- Description stored in the data mapping of a node, when present. -/
def dataDescription (d : List (String × DataVal)) : Option String :=
  match d.find? (fun kv => kv.1 == "description") with
  | some (_, DataVal.s v) => some v
  | _ => none

/-- Modelled from the spec: a tree is the (insertion-ordered) list of its
nodes; the synthetic root node tagged Unknown is implicit. -/
structure KTree where
  nodes : List TNode
deriving Repr, DecidableEq

namespace KTree

/-- The empty tree: only the synthetic root. -/
def empty : KTree := ⟨[]⟩

/-- The tags present in the tree, the synthetic root included. -/
def tags (t : KTree) : List String :=
  "Unknown" :: t.nodes.map (fun n => n.tag)

/-- Tag membership test, the synthetic root included. -/
def containsTag (t : KTree) (g : String) : Bool :=
  g == "Unknown" || t.nodes.any (fun n => n.tag == g)

/-- Look up the node carrying a tag (the synthetic root has no node). -/
def findNode (t : KTree) (g : String) : Option TNode :=
  t.nodes.find? (fun n => n.tag == g)

/-- The children of the node tagged g, in insertion order. -/
def childrenOf (t : KTree) (g : String) : List TNode :=
  t.nodes.filter (fun n => n.parent == g)

/-- Modelled from the spec: insert a new node under the parent tag (the
synthetic root when none is given).  Fails with DuplicateTagError when
the tag already exists in this tree and with NoSuchParentError when the
parent does not resolve.  On failure the tree is unchanged. -/
def insert (t : KTree) (id : Nat) (tag : String) (parent : Option String)
    (data : List (String × DataVal)) : KTree × Option KError :=
  if t.containsTag tag then (t, some KError.DuplicateTagError)
  else if t.containsTag (parent.getD "Unknown") then
    (⟨t.nodes ++ [⟨id, tag, parent.getD "Unknown", data⟩]⟩, none)
  else (t, some KError.NoSuchParentError)

/-- Walk the parent chain upwards from a tag, fuel-bounded by the size
of the tree; produces the tag itself first, the root last. -/
def upChain (t : KTree) : Nat → String → List String
  | 0, g => [g]
  | fuel + 1, g =>
    match t.findNode g with
    | none => [g]
    | some n => g :: upChain t fuel n.parent

/-- The ancestor chain of a tag, root first, the tag itself last. -/
def chainTags (t : KTree) (g : String) : List String :=
  (upChain t t.nodes.length g).reverse

/-- True when anc occurs on the ancestor chain of g (g included). -/
def isAncestor (t : KTree) (anc g : String) : Bool :=
  (chainTags t g).contains anc

/-- Modelled from the spec: remove the node carrying a tag.  Fails with
NotFoundError when the tag is absent; when the node has children and
cascade is false, fails with HasChildrenError; with cascade, the whole
subtree is removed.  On failure the tree is unchanged. -/
def remove (t : KTree) (tag : String) (cascade : Bool) :
    KTree × Option KError :=
  match t.findNode tag with
  | none => (t, some KError.NotFoundError)
  | some _ =>
    if cascade then
      (⟨t.nodes.filter
        (fun n => !((upChain t t.nodes.length n.tag).contains tag))⟩, none)
    else if t.childrenOf tag ≠ [] then (t, some KError.HasChildrenError)
    else (⟨t.nodes.filter (fun n => !(n.tag == tag))⟩, none)

/-- Re-parent every child of a merged node onto the new node. -/
def reparentNodes (sibs : List String) (newTag : String)
    (nodes : List TNode) : List TNode :=
  nodes.map (fun n =>
    if sibs.contains n.parent && !(sibs.contains n.tag) then
      { n with parent := newTag }
    else n)

/-- Modelled from the spec: merge the sibling nodes listed in sibs into
one new node.  All listed tags must exist (NotFoundError otherwise) and
share one parent (NotSiblingsError otherwise); the new tag must not
already exist in the tree (DuplicateTagError otherwise).  Every child of
a merged node is re-parented onto the new node; with removeMerged the
merged nodes are deleted, otherwise they stay as childless leaves.  On
failure the tree is unchanged. -/
def merge (t : KTree) (newTag : String) (sibs : List String)
    (data : List (String × DataVal)) (removeMerged : Bool) (newId : Nat) :
    KTree × Option KError :=
  match sibs with
  | [] => (t, some KError.NotFoundError)
  | s₀ :: rest =>
    match t.findNode s₀ with
    | none => (t, some KError.NotFoundError)
    | some n₀ =>
      if rest.any (fun s => (t.findNode s).isNone) then
        (t, some KError.NotFoundError)
      else if !(rest.all (fun s =>
          ((t.findNode s).map (fun n => n.parent == n₀.parent)).getD false)) then
        (t, some KError.NotSiblingsError)
      else if t.containsTag newTag then (t, some KError.DuplicateTagError)
      else if removeMerged then
        (⟨⟨newId, newTag, n₀.parent, data⟩ ::
          (reparentNodes sibs newTag t.nodes).filter
            (fun n => !(sibs.contains n.tag))⟩, none)
      else
        (⟨⟨newId, newTag, n₀.parent, data⟩ ::
          reparentNodes sibs newTag t.nodes⟩, none)

end KTree

/-- Modelled from the spec: fold one node into the effective view under
construction.  A tag already present is reused as the attachment point
(the nearer definition overrides the data, applied last); the same tag
at a different position raises TagConflictError; an unseen tag is added
with the parent recorded on the node itself. -/
def addNode (l : List TNode) (n : TNode) : Except KError (List TNode) :=
  match l.find? (fun m => m.tag == n.tag) with
  | none => Except.ok (l ++ [n])
  | some m =>
    if m.parent == n.parent then
      Except.ok (l.map (fun x =>
        if x.tag == n.tag then { x with data := n.data } else x))
    else Except.error KError.TagConflictError

/-- Fold a list of nodes into the effective view under construction. -/
def addNodes (l : List TNode) : List TNode → Except KError (List TNode)
  | [] => Except.ok l
  | n :: ns =>
    match addNode l n with
    | Except.error e => Except.error e
    | Except.ok l₁ => addNodes l₁ ns

/-- Fold the per-source trees of the ancestor chain, most distant
ancestor first, into one list of view nodes. -/
def viewNodesAux (l : List TNode) : List KTree → Except KError (List TNode)
  | [] => Except.ok l
  | t :: ts =>
    match addNodes l t.nodes with
    | Except.error e => Except.error e
    | Except.ok l₁ => viewNodesAux l₁ ts

/-- Modelled from the spec: the node list of the effective view obtained
from the chain of sound-type trees, root-most tree first. -/
def viewNodes (ts : List KTree) : Except KError (List TNode) :=
  viewNodesAux [] ts

/-- Modelled from the spec: the in-memory taxonomy — its immutable name,
the location of its backing store, the sound-source tree, the side table
binding each sound-source tag (the synthetic root included) to its own
sound-type tree, and the id counter for process-unique node ids. -/
structure AcousticTaxonomy where
  name : String
  path : String
  sources : KTree
  soundTypes : List (String × KTree)
  nextId : Nat
deriving Repr, DecidableEq

namespace AcousticTaxonomy

/-- A fresh taxonomy: empty source tree, one empty sound-type tree bound
to the synthetic root. -/
def mk0 (name path : String) : AcousticTaxonomy :=
  ⟨name, path, KTree.empty, [("Unknown", KTree.empty)], 0⟩

/-- The own sound-type tree bound to a sound-source tag. -/
def lookupST (τ : AcousticTaxonomy) (g : String) : Option KTree :=
  (τ.soundTypes.find? (fun kv => kv.1 == g)).map (fun kv => kv.2)

/-- Replace the sound-type tree bound to a sound-source tag. -/
def updateST (τ : AcousticTaxonomy) (g : String) (t : KTree) :
    List (String × KTree) :=
  τ.soundTypes.map (fun kv => if kv.1 == g then (kv.1, t) else kv)

/-- Modelled from the spec: the effective sound-type view of a sound
source — walk the source chain from the root down to the source and fold
the bound trees into one view, nearer trees last. -/
def effectiveView (τ : AcousticTaxonomy) (sourceTag : String) :
    Except KError KTree :=
  (viewNodes ((τ.sources.chainTags sourceTag).filterMap τ.lookupST)).map
    (fun l => ⟨l⟩)

/-- Modelled from the spec: create a sound source — insert into the
sound-source tree and bind a fresh empty sound-type tree to the new tag.
On failure the taxonomy is unchanged. -/
def create_sound_source (τ : AcousticTaxonomy) (tag : String)
    (parent : Option String) (name description : Option String) :
    AcousticTaxonomy × Option KError :=
  match τ.sources.insert τ.nextId tag parent (mkData name description true) with
  | (_, some e) => (τ, some e)
  | (t, none) =>
    ({ τ with
        sources := t
        soundTypes := τ.soundTypes ++ [(tag, KTree.empty)]
        nextId := τ.nextId + 1 }, none)

/-- Modelled from the spec: create a sound type in the own tree of the
given sound source.  The source must exist (NotFoundError); the tag must
not already be visible from the source (DuplicateTagError) and the
parent must be visible from the source (NoSuchParentError), inherited
attachment points included.  On failure the taxonomy is unchanged. -/
def create_sound_type (τ : AcousticTaxonomy) (tag sourceTag : String)
    (parent : Option String) (name description : Option String) :
    AcousticTaxonomy × Option KError :=
  match τ.lookupST sourceTag with
  | none => (τ, some KError.NotFoundError)
  | some own =>
    match τ.effectiveView sourceTag with
    | Except.error e => (τ, some e)
    | Except.ok vw =>
      if vw.containsTag tag then (τ, some KError.DuplicateTagError)
      else if vw.containsTag (parent.getD "Unknown") then
        ({ τ with
            soundTypes := τ.updateST sourceTag
              ⟨own.nodes ++ [⟨τ.nextId, tag, parent.getD "Unknown",
                mkData name description false⟩]⟩
            nextId := τ.nextId + 1 }, none)
      else (τ, some KError.NoSuchParentError)

/-- Modelled from the spec: the effective sound-type view of a source,
in state-passing form — the taxonomy is handed back untouched next to
the freshly computed view. -/
def sound_types (τ : AcousticTaxonomy) (sourceTag : String) :
    AcousticTaxonomy × Except KError KTree :=
  match τ.lookupST sourceTag with
  | none => (τ, Except.error KError.NotFoundError)
  | some _ => (τ, τ.effectiveView sourceTag)

/-- Modelled from the spec: merge sound-type nodes of the own tree of a
sound source; tags present only by inheritance are not found there.  On
failure the taxonomy is unchanged. -/
def merge_sound_types (τ : AcousticTaxonomy) (tag sourceTag : String)
    (children : List String) (remove : Bool) :
    AcousticTaxonomy × Option KError :=
  match τ.lookupST sourceTag with
  | none => (τ, some KError.NotFoundError)
  | some own =>
    match own.merge tag children (mkData none none false) remove τ.nextId with
    | (_, some e) => (τ, some e)
    | (own2, none) =>
      ({ τ with
          soundTypes := τ.updateST sourceTag own2
          nextId := τ.nextId + 1 }, none)

end AcousticTaxonomy

/-- Lexicographic order on character lists, by code point. -/
def charListLe : List Char → List Char → Bool
  | [], _ => true
  | _ :: _, [] => false
  | a :: as, b :: bs =>
    if a.toNat < b.toNat then true
    else if b.toNat < a.toNat then false
    else charListLe as bs

/-- Lexicographic order on strings, by code point. -/
def strLe (a b : String) : Bool := charListLe a.data b.data

namespace KTree

/-- The tags of the children of a node, in the order the tutorial
notebook shows them: sorted lexicographically. -/
def sortedChildTags (t : KTree) (g : String) : List String :=
  List.insertionSort (fun a b => strLe a b) ((t.childrenOf g).map (fun n => n.tag))

/-- The label a node is rendered with: its tag, followed by its name in
brackets when a name is present (show with append_name). -/
def label (t : KTree) (g : String) : String :=
  match t.findNode g with
  | none => g
  | some n =>
    match dataName n.data with
    | none => g
    | some nm => g ++ " [" ++ nm ++ "]"

/-- Depth-first pre-order rendering, fuel-bounded: one (depth, label)
line per node, children in sorted order as the notebook shows them. -/
def renderAux (t : KTree) : Nat → Nat → String → List (Nat × String)
  | 0, _, _ => []
  | fuel + 1, depth, g =>
    (depth, t.label g) ::
      ((t.sortedChildTags g).map (renderAux t fuel (depth + 1))).flatten

/-- Modelled from the spec: the diagnostic rendering of a tree, one
(depth, label) line per node starting at the synthetic root, matching
the notebook output of show(append_name=True). -/
def render (t : KTree) : List (Nat × String) :=
  renderAux t (t.nodes.length + 1) 0 "Unknown"

/-- Depth-first pre-order traversal, fuel-bounded, yielding tags. -/
def traverseAux (t : KTree) : Nat → String → List String
  | 0, _ => []
  | fuel + 1, g =>
    g :: ((t.sortedChildTags g).map (traverseAux t fuel)).flatten

/-- Depth-first pre-order traversal of the whole tree from the synthetic
root, restartable because it is recomputed from the tree each call. -/
def traverse (t : KTree) : List String :=
  traverseAux t (t.nodes.length + 1) "Unknown"

end KTree

section Scenario

open AcousticTaxonomy

/-- Step helper: run an operation and keep the resulting state. -/
def step (f : AcousticTaxonomy → AcousticTaxonomy × Option KError)
    (τ : AcousticTaxonomy) : AcousticTaxonomy := (f τ).1

/-- The tutorial scenario up to the creation of the sound sources
Bio, Whale (parent Bio), NARW and HW (parents Whale). -/
def scnSrcOnly : AcousticTaxonomy :=
  step (fun τ => create_sound_source τ "HW" (some "Whale") (some "Humpback whale") none)
  (step (fun τ => create_sound_source τ "NARW" (some "Whale")
      (some "North Atlantic right whale") none)
  (step (fun τ => create_sound_source τ "Whale" (some "Bio") none none)
  (step (fun τ => create_sound_source τ "Bio" none (some "Biological")
      (some "Any sound-producing animal"))
  (mk0 "my-first-taxonomy" "tax_t1.sqlite"))))

/-- The tutorial scenario after also creating the sound types TC at
Whale, LU and FU (parent TC) at NARW and GS at NARW. -/
def scnSources : AcousticTaxonomy :=
  step (fun τ => create_sound_type τ "GS" "NARW" none (some "Gun shot") none)
  (step (fun τ => create_sound_type τ "FU" "NARW" (some "TC") (some "Faint Upcall") none)
  (step (fun τ => create_sound_type τ "LU" "NARW" (some "TC") (some "Loud Upcall") none)
  (step (fun τ => create_sound_type τ "TC" "Whale" none (some "Tonal call")
      (some "A sound with tonal components"))
  scnSrcOnly)))

/-- The tutorial scenario after also merging FU and LU into Upcall. -/
def scnMerged : AcousticTaxonomy :=
  step (fun τ => merge_sound_types τ "Upcall" "NARW" ["FU", "LU"] true)
    scnSources

end Scenario

/-- Modelled from the spec: one persisted node row — which tree it
belongs to (none for the sound-source tree, the owning source tag for a
sound-type tree), and the node id, tag, parent tag, name and
description. -/
structure Row where
  tree : Option String
  id : Nat
  tag : String
  parent : String
  name : Option String
  description : Option String
deriving Repr, DecidableEq

/-- Serialize one node into a row of the given tree. -/
def toRow (tr : Option String) (n : TNode) : Row :=
  ⟨tr, n.id, n.tag, n.parent, dataName n.data, dataDescription n.data⟩

/-- Rebuild a node from a persisted row. -/
def ofRow (isSource : Bool) (r : Row) : TNode :=
  ⟨r.id, r.tag, r.parent, mkData r.name r.description isSource⟩

/-- Modelled from the spec: the full serialized snapshot of a taxonomy,
self-describing enough to round-trip every node attribute, every edge
and the source to sound-type-tree binding. -/
structure Snapshot where
  name : String
  nextId : Nat
  rows : List Row
deriving Repr, DecidableEq

/-- Modelled from the spec: serialize a taxonomy — the source rows
followed by the rows of every bound sound-type tree. -/
def serialize (τ : AcousticTaxonomy) : Snapshot :=
  ⟨τ.name, τ.nextId,
    τ.sources.nodes.map (toRow none) ++
      (τ.soundTypes.map (fun kv => kv.2.nodes.map (toRow (some kv.1)))).flatten⟩

/-- Modelled from the spec: rebuild a live taxonomy from a snapshot; the
sound-type binding keys are the synthetic root followed by the source
tags in source order. -/
def deserialize (path : String) (s : Snapshot) : AcousticTaxonomy :=
  ⟨s.name, path,
    ⟨(s.rows.filter (fun r => r.tree.isNone)).map (ofRow true)⟩,
    ("Unknown" ::
        (s.rows.filter (fun r => r.tree.isNone)).map (fun r => r.tag)).map
      (fun k =>
        (k, ⟨(s.rows.filter (fun r => r.tree == some k)).map (ofRow false)⟩)),
    s.nextId⟩

/-- Modelled from the spec: one version row of the version store. -/
structure VRow where
  name : String
  version : Nat
  comment : Option String
  snapshot : Snapshot
deriving Repr, DecidableEq

/-- Modelled from the spec: the append-only version store. -/
abbrev VersionStore := List VRow

/-- The rows persisted for a taxonomy name. -/
def versionsOf (st : VersionStore) (name : String) : List VRow :=
  st.filter (fun r => r.name == name)

/-- The highest version number persisted for a name, 0 when none. -/
def maxVersion (st : VersionStore) (name : String) : Nat :=
  (versionsOf st name).foldl (fun a r => max a r.version) 0

/-- Modelled from the spec: persist a snapshot under the next version
number for the name — 1 when none exist, max of the existing plus 1
otherwise — appending, never rewriting, a row. -/
def write (st : VersionStore) (name : String) (snap : Snapshot)
    (comment : Option String) : VersionStore × Nat :=
  let v := maxVersion st name + 1
  (st ++ [⟨name, v, comment, snap⟩], v)

/-- Keep whichever of the accumulated row and the next row carries the
higher version number. -/
def pickLatest (acc : Option VRow) (r : VRow) : Option VRow :=
  match acc with
  | none => some r
  | some m => if m.version < r.version then some r else some m

/-- The persisted row with the highest version number for a name. -/
def latestRow (st : VersionStore) (name : String) : Option VRow :=
  (versionsOf st name).foldl pickLatest none

/-- Modelled from the spec: fetch the snapshot of the given version, or
of the highest version when none is given; NotFoundError otherwise. -/
def read (st : VersionStore) (name : String) (version : Option Nat) :
    Except KError Snapshot :=
  match version with
  | some v =>
    match (versionsOf st name).find? (fun r => r.version == v) with
    | some r => Except.ok r.snapshot
    | none => Except.error KError.NotFoundError
  | none =>
    match latestRow st name with
    | some r => Except.ok r.snapshot
    | none => Except.error KError.NotFoundError

/-- Modelled from the spec: hand the current state to the version store
as a new immutable version; the new version number is returned. -/
def save (τ : AcousticTaxonomy) (st : VersionStore)
    (comment : Option String) : VersionStore × Nat :=
  write st τ.name (serialize τ) comment

/-- Modelled from the spec: reconstruct a live taxonomy from a persisted
version, the latest one when no version is given. -/
def load (st : VersionStore) (path name : String) (version : Option Nat) :
    Except KError AcousticTaxonomy :=
  (read st name version).map (deserialize path)

/-- Tag uniqueness invariant of one tree: no two nodes share a tag and
no node reuses the synthetic root tag. -/
def UniqueTags (t : KTree) : Prop :=
  (t.nodes.map (fun n => n.tag)).Nodup ∧
    "Unknown" ∉ t.nodes.map (fun n => n.tag)

/-- Tag uniqueness across a whole taxonomy: the source tree and every
bound sound-type tree. -/
def TaxUnique (τ : AcousticTaxonomy) : Prop :=
  UniqueTags τ.sources ∧ ∀ kv ∈ τ.soundTypes, UniqueTags kv.2

/-- A data mapping is canonical when it is exactly what node creation
builds from its stored name and description. -/
def canonicalData (isSource : Bool) (d : List (String × DataVal)) : Prop :=
  d = mkData (dataName d) (dataDescription d) isSource

/-- Well-formedness needed for persistence: the binding keys are the
synthetic root followed by the source tags in order, source tags are
unique and distinct from the root tag, and every data mapping is
canonical. -/
def WfTax (τ : AcousticTaxonomy) : Prop :=
  τ.soundTypes.map Prod.fst = "Unknown" :: τ.sources.nodes.map (fun n => n.tag) ∧
  (τ.sources.nodes.map (fun n => n.tag)).Nodup ∧
  "Unknown" ∉ τ.sources.nodes.map (fun n => n.tag) ∧
  (∀ n ∈ τ.sources.nodes, canonicalData true n.data) ∧
  (∀ kv ∈ τ.soundTypes, ∀ n ∈ kv.2.nodes, canonicalData false n.data)

instance (b : Bool) (d : List (String × DataVal)) :
    Decidable (canonicalData b d) := by
  unfold canonicalData; infer_instance

instance (t : KTree) : Decidable (UniqueTags t) := by
  unfold UniqueTags; infer_instance

instance (τ : AcousticTaxonomy) : Decidable (TaxUnique τ) := by
  unfold TaxUnique; infer_instance

instance (τ : AcousticTaxonomy) : Decidable (WfTax τ) := by
  unfold WfTax; infer_instance

/-! Theorems. -/

theorem charListLe_total : ∀ as bs, charListLe as bs = true ∨ charListLe bs as = true := by
  intro as
  induction as with
  | nil => intro bs; left; rfl
  | cons a as ih =>
    intro bs
    cases bs with
    | nil => right; rfl
    | cons b bs =>
      unfold charListLe
      rcases Nat.lt_trichotomy a.toNat b.toNat with h | h | h
      · left; simp [h]
      · have h1 : ¬ a.toNat < b.toNat := by omega
        have h2 : ¬ b.toNat < a.toNat := by omega
        rcases ih bs with hc | hc
        · left; simp [h1, h2, hc]
        · right; simp [h1, h2, hc]
      · right; simp [h]

theorem charListLe_trans :
    ∀ as bs cs, charListLe as bs = true → charListLe bs cs = true →
      charListLe as cs = true := by
  intro as
  induction as with
  | nil => intro bs cs _ _; rfl
  | cons a as ih =>
    intro bs cs h1 h2
    cases bs with
    | nil => simp [charListLe] at h1
    | cons b bs =>
      cases cs with
      | nil => simp [charListLe] at h2
      | cons c cs =>
        unfold charListLe at h1 h2 ⊢
        by_cases hab : a.toNat < b.toNat
        · by_cases hbc : b.toNat < c.toNat
          · simp [show a.toNat < c.toNat by omega]
          · by_cases hcb : c.toNat < b.toNat
            · simp [hbc, hcb] at h2
            · simp [show a.toNat < c.toNat by omega]
        · by_cases hba : b.toNat < a.toNat
          · simp [hab, hba] at h1
          · have hab2 : a.toNat = b.toNat := by omega
            by_cases hbc : b.toNat < c.toNat
            · simp [show a.toNat < c.toNat by omega]
            · by_cases hcb : c.toNat < b.toNat
              · simp [hbc, hcb] at h2
              · have : ¬ a.toNat < c.toNat := by omega
                have : ¬ c.toNat < a.toNat := by omega
                simp_all [ih bs cs]

theorem strLe_total (a b : String) : strLe a b = true ∨ strLe b a = true :=
  charListLe_total a.data b.data

theorem strLe_trans (a b c : String) (h1 : strLe a b = true)
    (h2 : strLe b c = true) : strLe a c = true :=
  charListLe_trans a.data b.data c.data h1 h2

/-- C1: in the tutorial scenario — sources Bio, Whale (parent Bio), NARW
and HW (parent Whale); types TC at Whale, LU and FU (parent TC) at NARW
and GS at NARW — the NARW effective view renders as root Unknown with
children GS and TC, TC carrying FU and LU; after merging FU and LU into
Upcall at NARW with remove, it renders as Unknown with children GS and
TC, TC carrying the single child Upcall. -/
theorem C1_scenario_renders :
    ((scnSources.sound_types "NARW").2.map KTree.render = Except.ok
      [(0, "Unknown"), (1, "GS [Gun shot]"), (1, "TC [Tonal call]"),
        (2, "FU [Faint Upcall]"), (2, "LU [Loud Upcall]")]) ∧
    ((scnMerged.sound_types "NARW").2.map KTree.render = Except.ok
      [(0, "Unknown"), (1, "GS [Gun shot]"), (1, "TC [Tonal call]"),
        (2, "Upcall")]) ∧
    ((scnSources.sound_types "NARW").2.map
        (fun vw => (vw.sortedChildTags "Unknown", vw.sortedChildTags "TC")) =
      Except.ok (["GS", "TC"], ["FU", "LU"])) ∧
    ((scnMerged.sound_types "NARW").2.map
        (fun vw => (vw.sortedChildTags "Unknown", vw.sortedChildTags "TC")) =
      Except.ok (["GS", "TC"], ["Upcall"])) :=
  ⟨rfl, rfl, rfl, rfl⟩

/-- C7 counterexample: in the tutorial scenario the sound sources NARW
and HW are created under Whale in this order, yet the rendered tree and
the traversal list HW before NARW — display order among siblings is not
insertion order. -/
theorem C7_counterexample_display_not_insertion_order :
    ((scnSources.sources.childrenOf "Whale").map (fun n => n.tag) =
      ["NARW", "HW"]) ∧
    (scnSources.sources.sortedChildTags "Whale" = ["HW", "NARW"]) ∧
    (scnSources.sources.traverse =
      ["Unknown", "Bio", "Whale", "HW", "NARW"]) ∧
    (["HW", "NARW"] : List String) ≠ ["NARW", "HW"] :=
  ⟨rfl, rfl, rfl, by decide⟩

/-- C7 amended: the children collection itself keeps insertion order,
but display and traversal order among the children of any node is
lexicographic tag order — a sorted permutation of the insertion-order
children, as the notebook renders show. -/
theorem C7_amended_display_sorted (t : KTree) (g : String) :
    List.Sorted (fun a b => strLe a b = true) (t.sortedChildTags g) ∧
    (t.sortedChildTags g).Perm ((t.childrenOf g).map (fun n => n.tag)) := by
  haveI : IsTotal String (fun a b => strLe a b = true) :=
    ⟨fun a b => strLe_total a b⟩
  haveI : IsTrans String (fun a b => strLe a b = true) :=
    ⟨fun a b c => strLe_trans a b c⟩
  exact ⟨List.sorted_insertionSort _ _, List.perm_insertionSort _ _⟩

theorem find?_update_list (l : List (String × KTree)) (s : String) (t : KTree)
    (h : (l.find? (fun kv => kv.1 == s)).isSome) :
    ((l.map (fun kv => if kv.1 == s then (kv.1, t) else kv)).find?
      (fun kv => kv.1 == s)).map Prod.snd = some t := by
  induction l with
  | nil => simp at h
  | cons kv l ih =>
    by_cases hk : kv.1 = s
    · simp [hk]
    · have hk2 : (kv.1 == s) = false := by simp [hk]
      have hhead : (if kv.1 == s then (kv.1, t) else kv) = kv := by simp [hk2]
      rw [List.map_cons, hhead, List.find?_cons_of_neg _ (by simp [hk2])]
      rw [List.find?_cons_of_neg _ (by simp [hk2])] at h
      exact ih h

theorem lookupST_after_update (τ : AcousticTaxonomy) (s : String)
    (t own : KTree) (nid : Nat) (h : τ.lookupST s = some own) :
    AcousticTaxonomy.lookupST
      { τ with soundTypes := τ.updateST s t, nextId := nid } s = some t := by
  unfold AcousticTaxonomy.lookupST at h ⊢
  unfold AcousticTaxonomy.updateST
  exact find?_update_list τ.soundTypes s t (by
    cases hf : τ.soundTypes.find? (fun kv => kv.1 == s) <;> simp [hf] at h ⊢)

/-- C8: sound_types is read-only — it hands the taxonomy back unchanged,
and its result is a function of the current trees alone (no hidden
cache): two taxonomies agreeing on the source tree and the sound-type
bindings get the same view. -/
theorem C8_sound_types_pure (τ : AcousticTaxonomy) (s : String) :
    (τ.sound_types s).1 = τ ∧
    ∀ τ₂ : AcousticTaxonomy, τ.sources = τ₂.sources →
      τ.soundTypes = τ₂.soundTypes →
      (τ.sound_types s).2 = (τ₂.sound_types s).2 := by
  constructor
  · unfold AcousticTaxonomy.sound_types
    cases h : τ.lookupST s <;> simp [h]
  · intro τ₂ h1 h2
    have hl : τ.lookupST = τ₂.lookupST := funext fun g => by
      unfold AcousticTaxonomy.lookupST; rw [h2]
    unfold AcousticTaxonomy.sound_types AcousticTaxonomy.effectiveView
    rw [h1, hl]
    cases hc : τ₂.lookupST s <;> simp [hc]

/-- C8 witness: at the tutorial scenario, the NARW view call returns the
taxonomy unchanged and agrees with itself. -/
theorem C8_sound_types_pure_witness :
    (scnSources.sound_types "NARW").1 = scnSources ∧
    (scnSources.sound_types "NARW").2 = (scnSources.sound_types "NARW").2 :=
  ⟨(C8_sound_types_pure scnSources "NARW").1,
    (C8_sound_types_pure scnSources "NARW").2 scnSources rfl rfl⟩

/-- C9: no operation partially mutates state on failure — whenever a
tree or taxonomy operation reports an error, the returned state equals
the state before the call. -/
theorem C9_all_or_nothing :
    (∀ (t : KTree) id tag parent data t' e,
      t.insert id tag parent data = (t', some e) → t' = t) ∧
    (∀ (t : KTree) tag cascade t' e,
      t.remove tag cascade = (t', some e) → t' = t) ∧
    (∀ (t : KTree) newTag sibs data rm newId t' e,
      t.merge newTag sibs data rm newId = (t', some e) → t' = t) ∧
    (∀ (τ : AcousticTaxonomy) tag parent nm ds τ' e,
      τ.create_sound_source tag parent nm ds = (τ', some e) → τ' = τ) ∧
    (∀ (τ : AcousticTaxonomy) tag s parent nm ds τ' e,
      τ.create_sound_type tag s parent nm ds = (τ', some e) → τ' = τ) ∧
    (∀ (τ : AcousticTaxonomy) tag s children rm τ' e,
      τ.merge_sound_types tag s children rm = (τ', some e) → τ' = τ) := by
  refine ⟨?_, ?_, ?_, ?_, ?_, ?_⟩
  · intro t id tag parent data t' e h
    unfold KTree.insert at h
    repeat' split at h
    all_goals simp_all
  · intro t tag cascade t' e h
    unfold KTree.remove at h
    repeat' split at h
    all_goals simp_all
  · intro t newTag sibs data rm newId t' e h
    unfold KTree.merge at h
    repeat' split at h
    all_goals simp_all
  · intro τ tag parent nm ds τ' e h
    unfold AcousticTaxonomy.create_sound_source at h
    repeat' split at h
    all_goals simp_all
  · intro τ tag s parent nm ds τ' e h
    unfold AcousticTaxonomy.create_sound_type at h
    repeat' split at h
    all_goals simp_all
  · intro τ tag s children rm τ' e h
    unfold AcousticTaxonomy.merge_sound_types at h
    repeat' split at h
    all_goals simp_all

/-- C9 witness: inserting the already present tag Bio into the scenario
source tree fails and leaves the tree unchanged. -/
theorem C9_all_or_nothing_witness :
    (scnSources.sources.insert 99 "Bio" none []).1 = scnSources.sources :=
  C9_all_or_nothing.1 scnSources.sources 99 "Bio" none []
    (scnSources.sources.insert 99 "Bio" none []).1 KError.DuplicateTagError
    (by rfl)

/-- C10: attributes omitted at node creation are absent from the data
mapping — the created node carries exactly the supplied name and
description keys, plus, for sound sources, the sound_types binding. -/
theorem C10_omitted_attributes_absent :
    (∀ (τ : AcousticTaxonomy) tag parent nm ds τ',
      τ.create_sound_source tag parent nm ds = (τ', none) →
      ∃ n ∈ τ'.sources.nodes, n.tag = tag ∧
        n.data.map Prod.fst =
          (if nm.isSome then ["name"] else []) ++
          (if ds.isSome then ["description"] else []) ++ ["sound_types"]) ∧
    (∀ (τ : AcousticTaxonomy) tag s parent nm ds τ' own,
      τ.create_sound_type tag s parent nm ds = (τ', none) →
      τ'.lookupST s = some own →
      ∃ n ∈ own.nodes, n.tag = tag ∧
        n.data.map Prod.fst =
          (if nm.isSome then ["name"] else []) ++
          (if ds.isSome then ["description"] else [])) := by
  constructor
  · intro τ tag parent nm ds τ' h
    unfold AcousticTaxonomy.create_sound_source at h
    split at h
    · exact absurd h (by simp)
    · rename_i t hins
      have hτ : τ' = { τ with
          sources := t
          soundTypes := τ.soundTypes ++ [(tag, KTree.empty)]
          nextId := τ.nextId + 1 } := by
        have h1 := congrArg Prod.fst h
        simpa using h1.symm
      unfold KTree.insert at hins
      split at hins
      · simp_all
      · split at hins
        · have ht : t = ⟨τ.sources.nodes ++
              [⟨τ.nextId, tag, parent.getD "Unknown", mkData nm ds true⟩]⟩ := by
            have h1 := congrArg Prod.fst hins
            simpa using h1.symm
          refine ⟨⟨τ.nextId, tag, parent.getD "Unknown", mkData nm ds true⟩,
            ?_, rfl, ?_⟩
          · rw [hτ]; simp [ht]
          · rcases nm with _ | v <;> rcases ds with _ | w <;> simp [mkData]
        · simp_all
  · intro τ tag s parent nm ds τ' own h hown
    unfold AcousticTaxonomy.create_sound_type at h
    split at h
    · exact absurd h (by simp)
    · rename_i own0 hlk
      split at h
      · exact absurd h (by simp)
      · split at h
        · exact absurd h (by simp)
        · split at h
          · have hτ : τ' = { τ with
                soundTypes := τ.updateST s ⟨own0.nodes ++
                  [⟨τ.nextId, tag, parent.getD "Unknown", mkData nm ds false⟩]⟩
                nextId := τ.nextId + 1 } := by
              have h1 := congrArg Prod.fst h
              simpa using h1.symm
            have hlk2 := lookupST_after_update τ s
              ⟨own0.nodes ++
                [⟨τ.nextId, tag, parent.getD "Unknown", mkData nm ds false⟩]⟩
              own0 (τ.nextId + 1) hlk
            rw [hτ, hlk2] at hown
            have hown2 : own = ⟨own0.nodes ++
                [⟨τ.nextId, tag, parent.getD "Unknown", mkData nm ds false⟩]⟩ :=
              (Option.some.injEq .. ▸ hown).symm
            refine ⟨⟨τ.nextId, tag, parent.getD "Unknown", mkData nm ds false⟩,
              ?_, rfl, ?_⟩
            · rw [hown2]; simp
            · rcases nm with _ | v <;> rcases ds with _ | w <;> simp [mkData]
          · exact absurd h (by simp)

/-- C10 witness: the scenario creation of the source Whale without a
name or description yields a data mapping holding only the sound_types
binding. -/
theorem C10_omitted_attributes_absent_witness :
    ∃ n ∈ (AcousticTaxonomy.create_sound_source
        (step (fun τ => AcousticTaxonomy.create_sound_source τ "Bio" none
          (some "Biological") (some "Any sound-producing animal"))
          (AcousticTaxonomy.mk0 "my-first-taxonomy" "tax_t1.sqlite"))
        "Whale" (some "Bio") none none).1.sources.nodes,
      n.tag = "Whale" ∧ n.data.map Prod.fst = ["sound_types"] := by
  have h := C10_omitted_attributes_absent.1
    (step (fun τ => AcousticTaxonomy.create_sound_source τ "Bio" none
      (some "Biological") (some "Any sound-producing animal"))
      (AcousticTaxonomy.mk0 "my-first-taxonomy" "tax_t1.sqlite"))
    "Whale" (some "Bio") none none _ (by rfl)
  exact h

theorem containsTag_eq_false (t : KTree) (g : String) :
    t.containsTag g = false ↔
      g ≠ "Unknown" ∧ g ∉ t.nodes.map (fun n => n.tag) := by
  unfold KTree.containsTag
  simp only [Bool.or_eq_false_iff, List.any_eq_false, Bool.not_eq_true,
    beq_eq_false_iff_ne, ne_eq, List.mem_map, not_exists, not_and]

theorem uniqueTags_filter (t : KTree) (p : TNode → Bool)
    (h : UniqueTags t) : UniqueTags ⟨t.nodes.filter p⟩ := by
  obtain ⟨h1, h2⟩ := h
  have hs : ((t.nodes.filter p).map (fun n => n.tag)).Sublist
      (t.nodes.map (fun n => n.tag)) := (List.filter_sublist t.nodes).map _
  exact ⟨h1.sublist hs, fun hm => h2 (hs.subset hm)⟩

theorem uniqueTags_insert (t : KTree) (id : Nat) (tag : String)
    (parent : Option String) (data : List (String × DataVal))
    (h : UniqueTags t) : UniqueTags (t.insert id tag parent data).1 := by
  unfold KTree.insert
  split
  · exact h
  · rename_i hdup
    rw [Bool.not_eq_true] at hdup
    obtain ⟨hu, hn⟩ := (containsTag_eq_false t tag).mp hdup
    obtain ⟨h1, h2⟩ := h
    split
    · constructor
      · simp only [List.map_append, List.map_cons, List.map_nil]
        exact List.nodup_append.mpr ⟨h1, List.nodup_singleton _,
          by intro a ha hb; simp at hb; exact hn (hb ▸ ha)⟩
      · simp only [List.map_append, List.map_cons, List.map_nil,
          List.mem_append, List.mem_singleton]
        rintro (hm | hm)
        · exact h2 hm
        · exact hu hm.symm
    · exact ⟨h1, h2⟩

theorem uniqueTags_remove (t : KTree) (tag : String) (cascade : Bool)
    (h : UniqueTags t) : UniqueTags (t.remove tag cascade).1 := by
  unfold KTree.remove
  split
  · exact h
  · split
    · exact uniqueTags_filter t _ h
    · split
      · exact h
      · exact uniqueTags_filter t _ h

theorem map_tag_reparent (nodes : List TNode) (sibs : List String)
    (newTag : String) :
    (KTree.reparentNodes sibs newTag nodes).map (fun n => n.tag) =
      nodes.map (fun n => n.tag) := by
  unfold KTree.reparentNodes
  rw [List.map_map]
  apply List.map_congr_left
  intro n _
  simp only [Function.comp_apply]
  split <;> rfl

theorem uniqueTags_cons_kept (t : KTree) (newTag parentTag : String)
    (newId : Nat) (data : List (String × DataVal)) (kept : List TNode)
    (hs : (kept.map (fun n => n.tag)).Sublist (t.nodes.map (fun n => n.tag)))
    (hdup : t.containsTag newTag = false)
    (h : UniqueTags t) :
    UniqueTags ⟨⟨newId, newTag, parentTag, data⟩ :: kept⟩ := by
  obtain ⟨hu, hn⟩ := (containsTag_eq_false t newTag).mp hdup
  obtain ⟨h1, h2⟩ := h
  constructor
  · simp only [List.map_cons]
    exact List.nodup_cons.mpr ⟨fun hm => hn (hs.subset hm), h1.sublist hs⟩
  · simp only [List.map_cons, List.mem_cons]
    rintro (hm | hm)
    · exact hu hm.symm
    · exact h2 (hs.subset hm)

theorem uniqueTags_merge (t : KTree) (newTag : String) (sibs : List String)
    (data : List (String × DataVal)) (rm : Bool) (newId : Nat)
    (h : UniqueTags t) :
    UniqueTags (t.merge newTag sibs data rm newId).1 := by
  unfold KTree.merge
  repeat' split
  any_goals exact h
  all_goals rename_i sibs s0 rest x n0 heq hany hall hdup hrm
  all_goals rw [Bool.not_eq_true] at hdup
  · refine uniqueTags_cons_kept t newTag _ newId data _ ?_ hdup h
    have hsub : ((KTree.reparentNodes (s0 :: rest) newTag t.nodes).filter
        (fun n => !((s0 :: rest).contains n.tag))).Sublist
        (KTree.reparentNodes (s0 :: rest) newTag t.nodes) :=
      List.filter_sublist _
    have hsub2 := hsub.map (fun n => n.tag)
    rw [map_tag_reparent] at hsub2
    exact hsub2
  · refine uniqueTags_cons_kept t newTag _ newId data _ ?_ hdup h
    rw [map_tag_reparent]

theorem addNode_preserves (l l' : List TNode) (n : TNode)
    (h : addNode l n = Except.ok l') :
    ∀ m ∈ l, ∃ m' ∈ l', m'.tag = m.tag ∧ m'.parent = m.parent := by
  unfold addNode at h
  split at h
  · have hl : l' = l ++ [n] := by
      simpa using h.symm
    intro m hm
    exact ⟨m, by simp [hl, hm], rfl, rfl⟩
  · split at h
    · have hl : l' = l.map (fun x =>
          if x.tag == n.tag then { x with data := n.data } else x) := by
        simpa using h.symm
      intro m hm
      refine ⟨if m.tag == n.tag then { m with data := n.data } else m,
        by rw [hl]; exact List.mem_map_of_mem _ hm, ?_, ?_⟩ <;>
        split <;> rfl
    · exact absurd h (by simp)

theorem addNode_adds (l l' : List TNode) (n : TNode)
    (h : addNode l n = Except.ok l') :
    ∃ m' ∈ l', m'.tag = n.tag ∧ m'.parent = n.parent := by
  unfold addNode at h
  split at h
  · have hl : l' = l ++ [n] := by simpa using h.symm
    exact ⟨n, by simp [hl], rfl, rfl⟩
  · rename_i m₀ hfind
    split at h
    · rename_i hpar
      have hl : l' = l.map (fun x =>
          if x.tag == n.tag then { x with data := n.data } else x) := by
        simpa using h.symm
      have htag : m₀.tag = n.tag := by
        have := List.find?_some hfind
        simpa using this
      have hmem : m₀ ∈ l := List.mem_of_find?_eq_some hfind
      refine ⟨{ m₀ with data := n.data }, ?_, htag, by
        simpa using hpar⟩
      rw [hl]
      have : (if m₀.tag == n.tag then { m₀ with data := n.data } else m₀) =
          { m₀ with data := n.data } := by simp [htag]
      rw [← this]
      exact List.mem_map_of_mem _ hmem
    · exact absurd h (by simp)

theorem addNodes_facts (ns : List TNode) :
    ∀ l l', addNodes l ns = Except.ok l' →
      (∀ m ∈ l, ∃ m' ∈ l', m'.tag = m.tag ∧ m'.parent = m.parent) ∧
      (∀ n ∈ ns, ∃ m' ∈ l', m'.tag = n.tag ∧ m'.parent = n.parent) := by
  induction ns with
  | nil =>
    intro l l' h
    unfold addNodes at h
    have hl : l' = l := by simpa using h.symm
    subst hl
    exact ⟨fun m hm => ⟨m, hm, rfl, rfl⟩, by simp⟩
  | cons n ns ih =>
    intro l l' h
    unfold addNodes at h
    split at h
    · exact absurd h (by simp)
    · rename_i l₁ ha
      obtain ⟨ih1, ih2⟩ := ih l₁ l' h
      constructor
      · intro m hm
        obtain ⟨m₁, hm₁, ht, hp⟩ := addNode_preserves l l₁ n ha m hm
        obtain ⟨m', hm', ht', hp'⟩ := ih1 m₁ hm₁
        exact ⟨m', hm', ht'.trans ht, hp'.trans hp⟩
      · intro x hx
        rcases List.mem_cons.mp hx with rfl | hx
        · obtain ⟨m₁, hm₁, ht, hp⟩ := addNode_adds l l₁ x ha
          obtain ⟨m', hm', ht', hp'⟩ := ih1 m₁ hm₁
          exact ⟨m', hm', ht'.trans ht, hp'.trans hp⟩
        · exact ih2 x hx

theorem viewNodesAux_facts (ts : List KTree) :
    ∀ l l', viewNodesAux l ts = Except.ok l' →
      (∀ m ∈ l, ∃ m' ∈ l', m'.tag = m.tag ∧ m'.parent = m.parent) ∧
      (∀ t ∈ ts, ∀ n ∈ t.nodes,
        ∃ m' ∈ l', m'.tag = n.tag ∧ m'.parent = n.parent) := by
  induction ts with
  | nil =>
    intro l l' h
    unfold viewNodesAux at h
    have hl : l' = l := by simpa using h.symm
    subst hl
    exact ⟨fun m hm => ⟨m, hm, rfl, rfl⟩, by simp⟩
  | cons t ts ih =>
    intro l l' h
    unfold viewNodesAux at h
    split at h
    · exact absurd h (by simp)
    · rename_i l₁ ha
      obtain ⟨ih1, ih2⟩ := ih l₁ l' h
      obtain ⟨ha1, ha2⟩ := addNodes_facts t.nodes l l₁ ha
      constructor
      · intro m hm
        obtain ⟨m₁, hm₁, ht, hp⟩ := ha1 m hm
        obtain ⟨m', hm', ht', hp'⟩ := ih1 m₁ hm₁
        exact ⟨m', hm', ht'.trans ht, hp'.trans hp⟩
      · intro u hu n hn
        rcases List.mem_cons.mp hu with rfl | hu
        · obtain ⟨m₁, hm₁, ht, hp⟩ := ha2 n hn
          obtain ⟨m', hm', ht', hp'⟩ := ih1 m₁ hm₁
          exact ⟨m', hm', ht'.trans ht, hp'.trans hp⟩
        · exact ih2 u hu n hn

theorem viewNodes_covers (ts : List KTree) (l' : List TNode)
    (h : viewNodes ts = Except.ok l') :
    ∀ t ∈ ts, ∀ n ∈ t.nodes,
      ∃ m' ∈ l', m'.tag = n.tag ∧ m'.parent = n.parent :=
  (viewNodesAux_facts ts [] l' h).2

theorem self_mem_upChain (t : KTree) (fuel : Nat) (g : String) :
    g ∈ t.upChain fuel g := by
  cases fuel <;> unfold KTree.upChain
  · simp
  · cases t.findNode g <;> simp

theorem self_mem_chainTags (t : KTree) (g : String) :
    g ∈ t.chainTags g := by
  unfold KTree.chainTags
  rw [List.mem_reverse]
  exact self_mem_upChain t _ g

theorem own_tags_in_view (τ : AcousticTaxonomy) (s : String)
    (own vw : KTree) (hlk : τ.lookupST s = some own)
    (hvw : τ.effectiveView s = Except.ok vw) :
    ∀ n ∈ own.nodes, ∃ m ∈ vw.nodes, m.tag = n.tag ∧ m.parent = n.parent := by
  unfold AcousticTaxonomy.effectiveView at hvw
  cases hv : viewNodes ((τ.sources.chainTags s).filterMap τ.lookupST) with
  | error e => rw [hv] at hvw; exact absurd hvw (by simp [Except.map])
  | ok l =>
    rw [hv] at hvw
    have hvweq : vw = ⟨l⟩ := by
      simpa [Except.map] using hvw.symm
    have hmem : own ∈ (τ.sources.chainTags s).filterMap τ.lookupST :=
      List.mem_filterMap.mpr ⟨s, self_mem_chainTags τ.sources s, hlk⟩
    intro n hn
    obtain ⟨m, hm, ht, hp⟩ := viewNodes_covers _ l hv own hmem n hn
    exact ⟨m, by rw [hvweq]; exact hm, ht, hp⟩

theorem uniqueTags_empty : UniqueTags KTree.empty := by
  constructor <;> simp [KTree.empty]

theorem uniqueTags_append_fresh (own : KTree) (node : TNode)
    (h : UniqueTags own) (h1 : node.tag ∉ own.nodes.map (fun n => n.tag))
    (h2 : node.tag ≠ "Unknown") : UniqueTags ⟨own.nodes ++ [node]⟩ := by
  obtain ⟨hn, hu⟩ := h
  constructor
  · simp only [List.map_append, List.map_cons, List.map_nil]
    exact List.nodup_append.mpr ⟨hn, List.nodup_singleton _,
      by intro a ha hb; simp at hb; exact h1 (hb ▸ ha)⟩
  · simp only [List.map_append, List.map_cons, List.map_nil, List.mem_append,
      List.mem_singleton]
    rintro (hm | hm)
    · exact hu hm
    · exact h2 hm.symm

theorem uniqueTags_of_lookupST (τ : AcousticTaxonomy) (s : String)
    (own : KTree) (h : TaxUnique τ) (hlk : τ.lookupST s = some own) :
    UniqueTags own := by
  unfold AcousticTaxonomy.lookupST at hlk
  cases hf : τ.soundTypes.find? (fun kv => kv.1 == s) with
  | none => rw [hf] at hlk; exact absurd hlk (by simp)
  | some entry =>
    rw [hf] at hlk
    have hmem := List.mem_of_find?_eq_some hf
    have he : entry.2 = own := by simpa using hlk
    rw [← he]
    exact h.2 entry hmem

theorem taxUnique_updateST (τ : AcousticTaxonomy) (s : String) (t2 : KTree)
    (nid : Nat) (h : TaxUnique τ) (h2 : UniqueTags t2) :
    TaxUnique { τ with soundTypes := τ.updateST s t2, nextId := nid } := by
  obtain ⟨hsrc, hst⟩ := h
  refine ⟨hsrc, ?_⟩
  intro kv hkv
  unfold AcousticTaxonomy.updateST at hkv
  obtain ⟨kv0, hkv0, hkve⟩ := List.mem_map.mp hkv
  rw [← hkve]
  split
  · exact h2
  · exact hst kv0 hkv0

theorem tag_not_in_own (τ : AcousticTaxonomy) (s : String) (own vw : KTree)
    (tg : String) (hlk : τ.lookupST s = some own)
    (hvw : τ.effectiveView s = Except.ok vw)
    (hdup : vw.containsTag tg = false) :
    tg ∉ own.nodes.map (fun n => n.tag) := by
  obtain ⟨_, hnvw⟩ := (containsTag_eq_false vw tg).mp hdup
  intro hmem
  rw [List.mem_map] at hmem
  obtain ⟨n, hn, htag⟩ := hmem
  obtain ⟨m, hm, hmt, _⟩ := own_tags_in_view τ s own vw hlk hvw n hn
  exact hnvw (List.mem_map.mpr ⟨m, hm, hmt.trans htag⟩)

theorem taxUnique_create_sound_source (τ : AcousticTaxonomy) (tag : String)
    (parent : Option String) (nm ds : Option String) (h : TaxUnique τ) :
    TaxUnique (τ.create_sound_source tag parent nm ds).1 := by
  unfold AcousticTaxonomy.create_sound_source
  split
  · exact h
  · rename_i t hins
    obtain ⟨h1, h2⟩ := h
    constructor
    · have hp := uniqueTags_insert τ.sources τ.nextId tag parent
        (mkData nm ds true) h1
      rw [hins] at hp
      exact hp
    · intro kv hkv
      rcases List.mem_append.mp hkv with hkv | hkv
      · exact h2 kv hkv
      · have : kv = (tag, KTree.empty) := by simpa using hkv
        rw [this]
        exact uniqueTags_empty

theorem taxUnique_create_sound_type (τ : AcousticTaxonomy) (tag s : String)
    (parent : Option String) (nm ds : Option String) (h : TaxUnique τ) :
    TaxUnique (τ.create_sound_type tag s parent nm ds).1 := by
  unfold AcousticTaxonomy.create_sound_type
  repeat' split
  any_goals exact h
  rename_i x1 own hlk x2 vw hvw hdup hpar
  rw [Bool.not_eq_true] at hdup
  refine taxUnique_updateST τ s _ (τ.nextId + 1) h ?_
  exact uniqueTags_append_fresh own _
    (uniqueTags_of_lookupST τ s own h hlk)
    (tag_not_in_own τ s own vw tag hlk hvw hdup)
    ((containsTag_eq_false vw tag).mp hdup).1

theorem taxUnique_merge_sound_types (τ : AcousticTaxonomy) (tag s : String)
    (children : List String) (rm : Bool) (h : TaxUnique τ) :
    TaxUnique (τ.merge_sound_types tag s children rm).1 := by
  unfold AcousticTaxonomy.merge_sound_types
  repeat' split
  any_goals exact h
  rename_i x1 own hlk x2 own2 hmrg
  refine taxUnique_updateST τ s _ (τ.nextId + 1) h ?_
  have hu := uniqueTags_merge own tag children (mkData none none false) rm
    τ.nextId (uniqueTags_of_lookupST τ s own h hlk)
  rw [hmrg] at hu
  exact hu

/-- C6: no two nodes in one tree share a tag — insert with a tag already
present fails with DuplicateTagError, and insert, remove, merge and each
taxonomy operation preserve the uniqueness invariant on every tree. -/
theorem C6_tag_uniqueness :
    (∀ (t : KTree) (id : Nat) (tag : String) (parent : Option String)
      (data : List (String × DataVal)), t.containsTag tag = true →
      t.insert id tag parent data = (t, some KError.DuplicateTagError)) ∧
    (∀ (t : KTree) (id : Nat) (tag : String) (parent : Option String)
      (data : List (String × DataVal)), UniqueTags t →
      UniqueTags (t.insert id tag parent data).1) ∧
    (∀ (t : KTree) (tag : String) (cascade : Bool), UniqueTags t →
      UniqueTags (t.remove tag cascade).1) ∧
    (∀ (t : KTree) (newTag : String) (sibs : List String)
      (data : List (String × DataVal)) (rm : Bool) (newId : Nat),
      UniqueTags t → UniqueTags (t.merge newTag sibs data rm newId).1) ∧
    (∀ (τ : AcousticTaxonomy) (tag : String) (parent : Option String)
      (nm ds : Option String), TaxUnique τ →
      TaxUnique (τ.create_sound_source tag parent nm ds).1) ∧
    (∀ (τ : AcousticTaxonomy) (tag s : String) (parent : Option String)
      (nm ds : Option String), TaxUnique τ →
      TaxUnique (τ.create_sound_type tag s parent nm ds).1) ∧
    (∀ (τ : AcousticTaxonomy) (tag s : String) (children : List String)
      (rm : Bool), TaxUnique τ →
      TaxUnique (τ.merge_sound_types tag s children rm).1) := by
  refine ⟨?_, ?_, ?_, ?_, ?_, ?_, ?_⟩
  · intro t id tag parent data hdup
    unfold KTree.insert
    simp [hdup]
  · exact fun t id tag parent data h => uniqueTags_insert t id tag parent data h
  · exact fun t tag cascade h => uniqueTags_remove t tag cascade h
  · exact fun t newTag sibs data rm newId h =>
      uniqueTags_merge t newTag sibs data rm newId h
  · exact fun τ tag parent nm ds h =>
      taxUnique_create_sound_source τ tag parent nm ds h
  · exact fun τ tag s parent nm ds h =>
      taxUnique_create_sound_type τ tag s parent nm ds h
  · exact fun τ tag s children rm h =>
      taxUnique_merge_sound_types τ tag s children rm h

/-- C6 witness: at the scenario, inserting the existing tag Bio fails
with DuplicateTagError, and the FU and LU merge keeps every tree of the
taxonomy free of duplicate tags. -/
theorem C6_tag_uniqueness_witness :
    scnSources.sources.insert 99 "Bio" none [] =
      (scnSources.sources, some KError.DuplicateTagError) ∧
    TaxUnique (scnSources.merge_sound_types "Upcall" "NARW" ["FU", "LU"]
      true).1 :=
  ⟨C6_tag_uniqueness.1 scnSources.sources 99 "Bio" none [] (by rfl),
    C6_tag_uniqueness.2.2.2.2.2.2 scnSources "Upcall" "NARW" ["FU", "LU"]
      true (by decide)⟩

/-- C2: a sound type created at source S via create_sound_type is
present in the effective view of every descendant D of S, attached under
the same parent tag as in the own tree of S. -/
theorem C2_inheritance_monotonicity (τ τ' : AcousticTaxonomy)
    (tag S D : String) (parent : Option String) (nm ds : Option String)
    (vw : KTree)
    (hc : τ.create_sound_type tag S parent nm ds = (τ', none))
    (hD : τ'.sources.isAncestor S D = true)
    (hv : (τ'.sound_types D).2 = Except.ok vw) :
    ∃ m ∈ vw.nodes, m.tag = tag ∧ m.parent = parent.getD "Unknown" := by
  unfold AcousticTaxonomy.create_sound_type at hc
  split at hc
  · exact absurd hc (by simp)
  · rename_i own0 hlk
    split at hc
    · exact absurd hc (by simp)
    · split at hc
      · exact absurd hc (by simp)
      · split at hc
        · have hτ : τ' = { τ with
              soundTypes := τ.updateST S ⟨own0.nodes ++
                [⟨τ.nextId, tag, parent.getD "Unknown", mkData nm ds false⟩]⟩
              nextId := τ.nextId + 1 } := by
            have h1 := congrArg Prod.fst hc
            simpa using h1.symm
          have hlk2 : τ'.lookupST S = some ⟨own0.nodes ++
              [⟨τ.nextId, tag, parent.getD "Unknown", mkData nm ds false⟩]⟩ := by
            rw [hτ]
            exact lookupST_after_update τ S _ own0 (τ.nextId + 1) hlk
          unfold AcousticTaxonomy.sound_types at hv
          split at hv
          · exact absurd hv (by simp)
          · have hmemS : S ∈ τ'.sources.chainTags D := by
              unfold KTree.isAncestor at hD
              exact List.elem_iff.mp hD
            have hown2 : (⟨own0.nodes ++
                [⟨τ.nextId, tag, parent.getD "Unknown", mkData nm ds false⟩]⟩ :
                  KTree) ∈ (τ'.sources.chainTags D).filterMap τ'.lookupST :=
              List.mem_filterMap.mpr ⟨S, hmemS, hlk2⟩
            unfold AcousticTaxonomy.effectiveView at hv
            cases hvn : viewNodes
                ((τ'.sources.chainTags D).filterMap τ'.lookupST) with
            | error e =>
              rw [hvn] at hv
              exact absurd hv (by simp [Except.map])
            | ok l =>
              rw [hvn] at hv
              have hvweq : vw = ⟨l⟩ := by simpa [Except.map] using hv.symm
              obtain ⟨m, hm, ht, hp⟩ := viewNodes_covers _ l hvn _ hown2
                ⟨τ.nextId, tag, parent.getD "Unknown", mkData nm ds false⟩
                (by simp)
              exact ⟨m, by rw [hvweq]; exact hm, ht, hp⟩
        · exact absurd hc (by simp)

/-- C2 witness: creating TC at Whale in the scenario makes TC visible in
the NARW effective view, attached at the synthetic root as in the Whale
tree. -/
theorem C2_inheritance_monotonicity_witness :
    ∃ m ∈ (((scnSrcOnly.create_sound_type "TC" "Whale" none
        (some "Tonal call") (some "A sound with tonal components")).1.sound_types
        "NARW").2.toOption.getD KTree.empty).nodes,
      m.tag = "TC" ∧ m.parent = "Unknown" :=
  C2_inheritance_monotonicity scnSrcOnly _ "TC" "Whale" "NARW" none
    (some "Tonal call") (some "A sound with tonal components") _
    (by rfl) (by rfl) (by rfl)

theorem merge_success_shape (t : KTree) (newTag s₀ : String)
    (rest : List String) (data : List (String × DataVal)) (newId : Nat)
    (t2 : KTree)
    (h : t.merge newTag (s₀ :: rest) data true newId = (t2, none)) :
    ∃ n₀, t.findNode s₀ = some n₀ ∧ t.containsTag newTag = false ∧
      t2 = ⟨⟨newId, newTag, n₀.parent, data⟩ ::
        (KTree.reparentNodes (s₀ :: rest) newTag t.nodes).filter
          (fun n => !((s₀ :: rest).contains n.tag))⟩ := by
  simp only [KTree.merge, if_true] at h
  split at h
  · exact absurd h (by simp)
  · rename_i n₀ heq
    split at h
    · exact absurd h (by simp)
    · split at h
      · exact absurd h (by simp)
      · split at h
        · exact absurd h (by simp)
        · rename_i hdup
          rw [Bool.not_eq_true] at hdup
          refine ⟨n₀, heq, hdup, ?_⟩
          have h1 := congrArg Prod.fst h
          simpa using h1.symm

theorem find?_tag_eq_of_mem (l : List TNode) (n : TNode)
    (hu : (l.map (fun x => x.tag)).Nodup) (hn : n ∈ l) :
    l.find? (fun x => x.tag == n.tag) = some n := by
  induction l with
  | nil => simp at hn
  | cons m l ih =>
    rcases List.mem_cons.mp hn with rfl | hn2
    · simp
    · have hne : (m.tag == n.tag) = false := by
        simp only [List.map_cons, List.nodup_cons] at hu
        refine beq_eq_false_iff_ne.mpr fun he => hu.1 ?_
        rw [he]
        exact List.mem_map.mpr ⟨n, hn2, rfl⟩
      rw [List.find?_cons_of_neg _ (by simp [hne])]
      exact ih (by
        simp only [List.map_cons, List.nodup_cons] at hu
        exact hu.2) hn2

theorem findNode_eq_of_mem (t : KTree) (n : TNode)
    (hu : (t.nodes.map (fun x => x.tag)).Nodup) (hn : n ∈ t.nodes) :
    t.findNode n.tag = some n :=
  find?_tag_eq_of_mem t.nodes n hu hn

/-- C3: after merging the sibling sound types a and b of source S into a
new node with remove, a and b are absent from the own tree of S, the new
node is present with the same parent a and b had, and every former child
of a or b is now a child of the new node. -/
theorem C3_merge_correctness (τ τ' : AcousticTaxonomy)
    (new S a b : String) (own own' : KTree) (na nb : TNode)
    (hlk : τ.lookupST S = some own)
    (hua : own.findNode a = some na)
    (hub : own.findNode b = some nb)
    (hsib : na.parent = nb.parent)
    (hnda : na.parent ≠ a) (hndb : na.parent ≠ b)
    (huniq : UniqueTags own)
    (hm : τ.merge_sound_types new S [a, b] true = (τ', none))
    (hlk2 : τ'.lookupST S = some own') :
    own'.containsTag a = false ∧
    own'.containsTag b = false ∧
    (∃ m, own'.findNode new = some m ∧ m.parent = na.parent) ∧
    (∀ n ∈ own.nodes, (n.parent = a ∨ n.parent = b) →
      ∃ m ∈ own'.nodes, m.tag = n.tag ∧ m.parent = new) := by
  -- extract the successful merge from the taxonomy operation
  unfold AcousticTaxonomy.merge_sound_types at hm
  split at hm
  · exact absurd hm (by simp)
  · rename_i own1 hlk1
    rw [hlk] at hlk1
    have hown1 : own1 = own := by simpa using hlk1.symm
    rw [hown1] at hm
    split at hm
    · exact absurd hm (by simp)
    · rename_i own2 hmrg
      have hτ : τ' = { τ with
          soundTypes := τ.updateST S own2
          nextId := τ.nextId + 1 } := by
        have h1 := congrArg Prod.fst hm
        simpa using h1.symm
      have hlkB : τ'.lookupST S = some own2 := by
        rw [hτ]
        exact lookupST_after_update τ S own2 own (τ.nextId + 1) hlk
      rw [hlkB] at hlk2
      have hown2 : own' = own2 := by simpa using hlk2.symm
      subst hown2
      obtain ⟨n₀, heq, hdup, hshape⟩ :=
        merge_success_shape own new a [b] (mkData none none false) τ.nextId
          own' hmrg
      rw [hua] at heq
      have hn₀ : n₀ = na := by simpa using heq.symm
      rw [hn₀] at hshape
      -- facts about the tags a, b and new
      have hma : na ∈ own.nodes := List.mem_of_find?_eq_some hua
      have hmb : nb ∈ own.nodes := List.mem_of_find?_eq_some hub
      have hta : na.tag = a := by
        have := List.find?_some hua
        simpa using this
      have htb : nb.tag = b := by
        have := List.find?_some hub
        simpa using this
      obtain ⟨hnewu, hnewmem⟩ := (containsTag_eq_false own new).mp hdup
      have hamem : a ∈ own.nodes.map (fun n => n.tag) :=
        List.mem_map.mpr ⟨na, hma, hta⟩
      have hbmem : b ∈ own.nodes.map (fun n => n.tag) :=
        List.mem_map.mpr ⟨nb, hmb, htb⟩
      have hane : a ≠ "Unknown" := fun he => huniq.2 (he ▸ hamem)
      have hbne : b ≠ "Unknown" := fun he => huniq.2 (he ▸ hbmem)
      have hanew : a ≠ new := fun he => hnewmem (he ▸ hamem)
      have hbnew : b ≠ new := fun he => hnewmem (he ▸ hbmem)
      -- a tag from the merged set does not survive in the kept nodes
      have hkept : ∀ g : String, g = a ∨ g = b →
          g ∉ own'.nodes.map (fun n => n.tag) := by
        intro g hg hmem
        rw [hshape] at hmem
        simp only [List.map_cons, List.mem_cons] at hmem
        rcases hmem with he | hmem
        · rcases hg with rfl | rfl
          · exact hanew he
          · exact hbnew he
        · rw [List.mem_map] at hmem
          obtain ⟨n, hn, htag⟩ := hmem
          have hf := (List.mem_filter.mp hn).2
          simp only [Bool.not_eq_eq_eq_not, Bool.not_true] at hf
          have hnin : n.tag ∉ ([a, b] : List String) := by
            intro hmm
            rw [← List.elem_iff] at hmm
            have hmm2 : ([a, b] : List String).contains n.tag = true := hmm
            rw [hf] at hmm2
            exact absurd hmm2 (by simp)
          rcases hg with rfl | rfl
          · exact hnin (by simp [htag])
          · exact hnin (by simp [htag])
      refine ⟨?_, ?_, ?_, ?_⟩
      · exact (containsTag_eq_false own' a).mpr ⟨hane, hkept a (Or.inl rfl)⟩
      · exact (containsTag_eq_false own' b).mpr ⟨hbne, hkept b (Or.inr rfl)⟩
      · refine ⟨⟨τ.nextId, new, na.parent, mkData none none false⟩, ?_, rfl⟩
        rw [hshape]
        unfold KTree.findNode
        exact List.find?_cons_of_pos _ (by simp)
      · intro n hn hpar
        have htna : n.tag ≠ a := by
          intro he
          have hfn := findNode_eq_of_mem own n huniq.1 hn
          rw [he, hua] at hfn
          have hna : n = na := by simpa using hfn.symm
          rcases hpar with hp | hp
          · exact hnda ((hna ▸ hp : na.parent = a))
          · exact hndb ((hna ▸ hp : na.parent = b))
        have htnb : n.tag ≠ b := by
          intro he
          have hfn := findNode_eq_of_mem own n huniq.1 hn
          rw [he, hub] at hfn
          have hnb : n = nb := by simpa using hfn.symm
          have hpn : n.parent = na.parent := by rw [hnb, ← hsib]
          rcases hpar with hp | hp
          · exact hnda (hpn ▸ hp)
          · exact hndb (hpn ▸ hp)
        have hcond : (([a, b] : List String).contains n.parent &&
            !(([a, b] : List String).contains n.tag)) = true := by
          have h1 : ([a, b] : List String).contains n.parent = true := by
            rw [List.elem_iff]
            rcases hpar with hp | hp <;> simp [hp]
          have h2 : ([a, b] : List String).contains n.tag = false := by
            rw [← Bool.not_eq_true]
            intro hc
            rcases (by simpa using List.elem_iff.mp hc :
                n.tag = a ∨ n.tag = b) with hc2 | hc2
            · exact htna hc2
            · exact htnb hc2
          rw [h1, h2]
          rfl
        refine ⟨{ n with parent := new }, ?_, rfl, rfl⟩
        rw [hshape]
        refine List.mem_cons_of_mem _ (List.mem_filter.mpr ⟨?_, ?_⟩)
        · have him := List.mem_map_of_mem (fun n =>
            if (([a, b] : List String).contains n.parent &&
                !(([a, b] : List String).contains n.tag)) = true then
              { n with parent := new }
            else n) hn
          unfold KTree.reparentNodes
          simp only [hcond] at him
          simpa using him
        · have h2 : (([a, b] : List String).contains n.tag) = false := by
            have := hcond
            cases hc : ([a, b] : List String).contains n.tag
            · rfl
            · rw [hc] at this; simp at this
          simp only [h2, Bool.not_false]

/-- C3 witness: merging FU and LU into Upcall at NARW in the scenario
removes FU and LU from the own NARW tree, adds Upcall as a child of TC,
and re-parents former children (there are none) onto Upcall. -/
theorem C3_merge_correctness_witness :
    (((scnSources.merge_sound_types "Upcall" "NARW" ["FU", "LU"]
        true).1.lookupST "NARW").getD KTree.empty).containsTag "FU" = false ∧
    (((scnSources.merge_sound_types "Upcall" "NARW" ["FU", "LU"]
        true).1.lookupST "NARW").getD KTree.empty).containsTag "LU" = false ∧
    ∃ m, (((scnSources.merge_sound_types "Upcall" "NARW" ["FU", "LU"]
        true).1.lookupST "NARW").getD KTree.empty).findNode "Upcall" =
          some m ∧
      m.parent = ((((scnSources.lookupST "NARW").getD
        KTree.empty).findNode "FU").getD ⟨0, "", "", []⟩).parent := by
  have h := C3_merge_correctness scnSources
    (scnSources.merge_sound_types "Upcall" "NARW" ["FU", "LU"] true).1
    "Upcall" "NARW" "FU" "LU"
    ((scnSources.lookupST "NARW").getD KTree.empty)
    (((scnSources.merge_sound_types "Upcall" "NARW" ["FU", "LU"]
      true).1.lookupST "NARW").getD KTree.empty)
    ((((scnSources.lookupST "NARW").getD KTree.empty).findNode
      "FU").getD ⟨0, "", "", []⟩)
    ((((scnSources.lookupST "NARW").getD KTree.empty).findNode
      "LU").getD ⟨0, "", "", []⟩)
    (by rfl) (by rfl) (by rfl) (by rfl) (by decide) (by decide) (by decide)
    (by rfl) (by rfl)
  exact ⟨h.1, h.2.1, h.2.2.1⟩

theorem foldl_max_le_start (l : List VRow) (a : Nat) :
    a ≤ l.foldl (fun acc r => max acc r.version) a := by
  induction l generalizing a with
  | nil => exact le_refl a
  | cons r l ih => exact le_trans (le_max_left a r.version) (ih _)

theorem mem_le_foldl_max (l : List VRow) (a : Nat) (r : VRow) (hr : r ∈ l) :
    r.version ≤ l.foldl (fun acc x => max acc x.version) a := by
  induction l generalizing a with
  | nil => simp at hr
  | cons x l ih =>
    rcases List.mem_cons.mp hr with rfl | hr2
    · exact le_trans (le_max_right a r.version) (foldl_max_le_start l _)
    · exact ih _ hr2

theorem version_le_maxVersion (st : VersionStore) (name : String) (r : VRow)
    (hr : r ∈ versionsOf st name) : r.version ≤ maxVersion st name :=
  mem_le_foldl_max _ 0 r hr

theorem versionsOf_append (st₁ st₂ : VersionStore) (name : String) :
    versionsOf (st₁ ++ st₂) name =
      versionsOf st₁ name ++ versionsOf st₂ name :=
  List.filter_append _ _

theorem write_version_increases (st : VersionStore) (name : String)
    (s1 s2 : Snapshot) (c1 c2 : Option String) :
    (write (write st name s1 c1).1 name s2 c2).2 > (write st name s1 c1).2 := by
  show maxVersion (st ++ [⟨name, maxVersion st name + 1, c1, s1⟩]) name + 1 >
    maxVersion st name + 1
  have hmem : (⟨name, maxVersion st name + 1, c1, s1⟩ : VRow) ∈
      versionsOf (st ++ [⟨name, maxVersion st name + 1, c1, s1⟩]) name := by
    unfold versionsOf
    rw [List.filter_append]
    refine List.mem_append_right _ ?_
    simp
  have h2 : maxVersion st name + 1 ≤
      maxVersion (st ++ [⟨name, maxVersion st name + 1, c1, s1⟩]) name :=
    version_le_maxVersion _ name _ hmem
  omega

theorem foldl_pickLatest_sound (l : List VRow) :
    ∀ (acc : Option VRow) (r : VRow), l.foldl pickLatest acc = some r →
      (r ∈ l ∨ acc = some r) ∧
      (∀ x ∈ l, x.version ≤ r.version) ∧
      (∀ m, acc = some m → m.version ≤ r.version) := by
  induction l with
  | nil =>
    intro acc r h
    simp only [List.foldl_nil] at h
    refine ⟨Or.inr h, by simp, fun m hm => ?_⟩
    rw [h] at hm
    have : m = r := by simpa using hm.symm
    rw [this]
  | cons x l ih =>
    intro acc r h
    rw [List.foldl_cons] at h
    obtain ⟨h1, h2, h3⟩ := ih (pickLatest acc x) r h
    have hxle : x.version ≤ r.version := by
      cases acc with
      | none => exact h3 x rfl
      | some m =>
        by_cases hlt : m.version < x.version
        · exact h3 x (by simp only [pickLatest]; rw [if_pos hlt])
        · have hm := h3 m (by simp only [pickLatest]; rw [if_neg hlt])
          omega
    refine ⟨?_, ?_, ?_⟩
    · rcases h1 with h1 | h1
      · exact Or.inl (List.mem_cons_of_mem x h1)
      · cases acc with
        | none =>
          simp only [pickLatest] at h1
          have hxr : x = r := by simpa using h1
          exact Or.inl (hxr ▸ List.mem_cons_self x l)
        | some m =>
          simp only [pickLatest] at h1
          by_cases hlt : m.version < x.version
          · rw [if_pos hlt] at h1
            have hxr : x = r := by simpa using h1
            exact Or.inl (hxr ▸ List.mem_cons_self x l)
          · rw [if_neg hlt] at h1
            exact Or.inr (by simpa using h1)
    · intro y hy
      rcases List.mem_cons.mp hy with rfl | hy2
      · exact hxle
      · exact h2 y hy2
    · intro m hm
      subst hm
      by_cases hlt : m.version < x.version
      · have hxv := h3 x (by simp only [pickLatest]; rw [if_pos hlt])
        omega
      · exact h3 m (by simp only [pickLatest]; rw [if_neg hlt])

theorem latestRow_sound (st : VersionStore) (name : String) (r : VRow)
    (h : latestRow st name = some r) :
    r ∈ versionsOf st name ∧
      ∀ x ∈ versionsOf st name, x.version ≤ r.version := by
  obtain ⟨h1, h2, _⟩ := foldl_pickLatest_sound (versionsOf st name) none r h
  rcases h1 with h1 | h1
  · exact ⟨h1, h2⟩
  · simp at h1

theorem latestRow_after_write (st : VersionStore) (name : String)
    (snap : Snapshot) (c : Option String) :
    latestRow (write st name snap c).1 name =
      some ⟨name, maxVersion st name + 1, c, snap⟩ := by
  show latestRow (st ++ [⟨name, maxVersion st name + 1, c, snap⟩]) name = _
  unfold latestRow
  rw [versionsOf_append]
  have hone : versionsOf [⟨name, maxVersion st name + 1, c, snap⟩] name =
      [⟨name, maxVersion st name + 1, c, snap⟩] := by
    unfold versionsOf
    simp
  rw [hone, List.foldl_append]
  cases hfold : (versionsOf st name).foldl pickLatest none with
  | none => rfl
  | some m =>
    obtain ⟨hmem, _⟩ := latestRow_sound st name m hfold
    have hle := version_le_maxVersion st name m hmem
    simp only [List.foldl_cons, List.foldl_nil, pickLatest]
    rw [if_pos (by
      show m.version < maxVersion st name + 1
      omega)]

theorem read_latest_after_write (st : VersionStore) (name : String)
    (snap : Snapshot) (c : Option String) :
    read (write st name snap c).1 name none = Except.ok snap := by
  unfold read
  rw [latestRow_after_write]

/-- C5: successive saves of one taxonomy name yield strictly increasing
version numbers, 1 when none exist and the maximum plus 1 otherwise, and
a load with the version omitted resolves to the snapshot carrying the
highest version number for that name. -/
theorem C5_version_monotonicity :
    (∀ (τ : AcousticTaxonomy) (st : VersionStore) (c : Option String),
      versionsOf st τ.name = [] → (save τ st c).2 = 1) ∧
    (∀ (τ : AcousticTaxonomy) (st : VersionStore) (c : Option String),
      (save τ st c).2 = maxVersion st τ.name + 1) ∧
    (∀ (τ₁ τ₂ : AcousticTaxonomy) (st : VersionStore) (c₁ c₂ : Option String),
      τ₂.name = τ₁.name →
      (save τ₂ (save τ₁ st c₁).1 c₂).2 > (save τ₁ st c₁).2) ∧
    (∀ (τ : AcousticTaxonomy) (st : VersionStore) (c : Option String),
      read (save τ st c).1 τ.name none = Except.ok (serialize τ)) ∧
    (∀ (st : VersionStore) (name : String) (s : Snapshot),
      read st name none = Except.ok s →
      ∃ r ∈ st, r.name = name ∧ r.snapshot = s ∧
        ∀ x ∈ st, x.name = name → x.version ≤ r.version) := by
  refine ⟨?_, ?_, ?_, ?_, ?_⟩
  · intro τ st c hempty
    show maxVersion st τ.name + 1 = 1
    unfold maxVersion
    rw [hempty]
    rfl
  · intro τ st c
    rfl
  · intro τ₁ τ₂ st c₁ c₂ hname
    unfold save
    rw [hname]
    exact write_version_increases st τ₁.name (serialize τ₁) (serialize τ₂)
      c₁ c₂
  · intro τ st c
    exact read_latest_after_write st τ.name (serialize τ) c
  · intro st name s hread
    unfold read at hread
    cases hlr : latestRow st name with
    | none => rw [hlr] at hread; exact absurd hread (by simp)
    | some r =>
      rw [hlr] at hread
      have hs : r.snapshot = s := by simpa using hread
      obtain ⟨hmem, hmax⟩ := latestRow_sound st name r hlr
      have hmem2 := List.mem_filter.mp hmem
      refine ⟨r, hmem2.1, by simpa using hmem2.2, hs, ?_⟩
      intro x hx hxname
      exact hmax x (List.mem_filter.mpr ⟨hx, by simp [hxname]⟩)

/-- C5 witness: saving the scenario taxonomy into an empty store yields
version 1, a second save yields a higher version, and the version-less
read returns the single highest-versioned snapshot. -/
theorem C5_version_monotonicity_witness :
    (save scnSources [] none).2 = 1 ∧
    ((save scnMerged (save scnSources [] none).1 none).2 >
      (save scnSources [] none).2) ∧
    ∃ r ∈ (save scnSources [] none).1, r.name = "my-first-taxonomy" ∧
      r.snapshot = serialize scnSources ∧
      ∀ x ∈ (save scnSources [] none).1, x.name = "my-first-taxonomy" →
        x.version ≤ r.version :=
  ⟨C5_version_monotonicity.1 scnSources [] none (by rfl),
    C5_version_monotonicity.2.2.1 scnSources scnMerged [] none none (by rfl),
    C5_version_monotonicity.2.2.2.2 (save scnSources [] none).1
      "my-first-taxonomy" (serialize scnSources)
      (C5_version_monotonicity.2.2.2.1 scnSources [] none)⟩

theorem map_id_of_mem {α : Type} (l : List α) (f : α → α)
    (h : ∀ a ∈ l, f a = a) : l.map f = l := by
  induction l with
  | nil => rfl
  | cons x l ih =>
    simp only [List.map_cons]
    rw [h x (by simp), ih (fun a ha => h a (by simp [ha]))]

theorem dataName_mkData (nm ds : Option String) (b : Bool) :
    dataName (mkData nm ds b) = nm := by
  rcases nm with _ | v <;> rcases ds with _ | w <;> cases b <;> rfl

theorem dataDescription_mkData (nm ds : Option String) (b : Bool) :
    dataDescription (mkData nm ds b) = ds := by
  rcases nm with _ | v <;> rcases ds with _ | w <;> cases b <;> rfl

theorem ofRow_toRow (tr : Option String) (b : Bool) (n : TNode)
    (h : canonicalData b n.data) : ofRow b (toRow tr n) = n := by
  unfold canonicalData at h
  unfold ofRow toRow
  cases n with
  | mk id tag parent data =>
    simp only
    rw [← h]

theorem filter_srcRows (τ : AcousticTaxonomy) :
    (serialize τ).rows.filter (fun r => r.tree.isNone) =
      τ.sources.nodes.map (toRow none) := by
  unfold serialize
  simp only
  rw [List.filter_append]
  have h1 : (τ.sources.nodes.map (toRow none)).filter
      (fun r => r.tree.isNone) = τ.sources.nodes.map (toRow none) :=
    List.filter_eq_self.mpr (by
      intro r hr
      rw [List.mem_map] at hr
      obtain ⟨n, _, rfl⟩ := hr
      rfl)
  have h2 : ((τ.soundTypes.map
      (fun kv => kv.2.nodes.map (toRow (some kv.1)))).flatten).filter
      (fun r => r.tree.isNone) = [] := by
    rw [List.filter_eq_nil_iff]
    intro r hr
    rw [List.mem_flatten] at hr
    obtain ⟨s, hs, hrs⟩ := hr
    rw [List.mem_map] at hs
    obtain ⟨kv, _, rfl⟩ := hs
    rw [List.mem_map] at hrs
    obtain ⟨n, _, rfl⟩ := hrs
    simp [toRow]
  rw [h1, h2, List.append_nil]

theorem filter_typeRows_nil (sts : List (String × KTree)) (k : String)
    (hk : k ∉ sts.map Prod.fst) :
    ((sts.map (fun kv => kv.2.nodes.map (toRow (some kv.1)))).flatten).filter
      (fun r => r.tree == some k) = [] := by
  rw [List.filter_eq_nil_iff]
  intro r hr
  rw [List.mem_flatten] at hr
  obtain ⟨s, hs, hrs⟩ := hr
  rw [List.mem_map] at hs
  obtain ⟨kv, hkv, rfl⟩ := hs
  rw [List.mem_map] at hrs
  obtain ⟨n, _, rfl⟩ := hrs
  simp only [toRow]
  intro hc
  exact hk (List.mem_map.mpr ⟨kv, hkv, by simpa using hc⟩)

theorem filter_typeRows (sts : List (String × KTree)) (k : String) (t : KTree)
    (hnd : (sts.map Prod.fst).Nodup) (hmem : (k, t) ∈ sts) :
    ((sts.map (fun kv => kv.2.nodes.map (toRow (some kv.1)))).flatten).filter
      (fun r => r.tree == some k) = t.nodes.map (toRow (some k)) := by
  induction sts with
  | nil => simp at hmem
  | cons kv sts ih =>
    simp only [List.map_cons, List.flatten_cons, List.filter_append]
    simp only [List.map_cons, List.nodup_cons] at hnd
    rcases List.mem_cons.mp hmem with heq | hmem2
    · subst heq
      show (t.nodes.map (toRow (some k))).filter
          (fun r => r.tree == some k) ++
        ((sts.map
          (fun kv2 => kv2.2.nodes.map (toRow (some kv2.1)))).flatten).filter
          (fun r => r.tree == some k) = t.nodes.map (toRow (some k))
      have hhead : (t.nodes.map (toRow (some k))).filter
          (fun r => r.tree == some k) = t.nodes.map (toRow (some k)) :=
        List.filter_eq_self.mpr (by
          intro r hr
          rw [List.mem_map] at hr
          obtain ⟨n, _, rfl⟩ := hr
          simp [toRow])
      have htail : ((sts.map
          (fun kv2 => kv2.2.nodes.map (toRow (some kv2.1)))).flatten).filter
          (fun r => r.tree == some k) = [] :=
        filter_typeRows_nil sts k (hnd.1 : k ∉ sts.map Prod.fst)
      rw [hhead, htail, List.append_nil]
    · have hkne : kv.1 ≠ k := by
        intro he
        refine hnd.1 ?_
        rw [he]
        exact List.mem_map.mpr ⟨(k, t), hmem2, rfl⟩
      have hhead : (kv.2.nodes.map (toRow (some kv.1))).filter
          (fun r => r.tree == some k) = [] := by
        rw [List.filter_eq_nil_iff]
        intro r hr
        rw [List.mem_map] at hr
        obtain ⟨n, _, rfl⟩ := hr
        simp only [toRow]
        intro hc
        exact hkne (by simpa using hc)
      rw [hhead, List.nil_append]
      exact ih hnd.2 hmem2

theorem deserialize_serialize (τ : AcousticTaxonomy) (h : WfTax τ) :
    deserialize τ.path (serialize τ) = τ := by
  obtain ⟨hkeys, hnd, hunk, hcansrc, hcanst⟩ := h
  have hkeysnd : (τ.soundTypes.map Prod.fst).Nodup := by
    rw [hkeys]
    exact List.nodup_cons.mpr ⟨hunk, hnd⟩
  have hrowsk : ∀ kv ∈ τ.soundTypes,
      (serialize τ).rows.filter (fun r => r.tree == some kv.1) =
        kv.2.nodes.map (toRow (some kv.1)) := by
    intro kv hkv
    unfold serialize
    simp only
    rw [List.filter_append]
    have hsrcnil : (τ.sources.nodes.map (toRow none)).filter
        (fun r => r.tree == some kv.1) = [] := by
      rw [List.filter_eq_nil_iff]
      intro r hr
      rw [List.mem_map] at hr
      obtain ⟨n, _, rfl⟩ := hr
      simp [toRow]
    rw [hsrcnil, List.nil_append]
    exact filter_typeRows τ.soundTypes kv.1 kv.2 hkeysnd hkv
  have hsrc : ((τ.sources.nodes.map (toRow none)).map (ofRow true)) =
      τ.sources.nodes := by
    rw [List.map_map]
    exact map_id_of_mem _ _ (fun n hn => ofRow_toRow none true n (hcansrc n hn))
  have htags : (τ.sources.nodes.map (toRow none)).map (fun r => r.tag) =
      τ.sources.nodes.map (fun n => n.tag) := by
    rw [List.map_map]
    rfl
  unfold deserialize
  rw [filter_srcRows, hsrc, htags, ← hkeys, List.map_map]
  have hst : τ.soundTypes.map ((fun k => ((k :  String),
      (⟨((serialize τ).rows.filter (fun r => r.tree == some k)).map
        (ofRow false)⟩ : KTree))) ∘ Prod.fst) = τ.soundTypes := by
    refine map_id_of_mem _ _ ?_
    intro kv hkv
    show (kv.1, (⟨((serialize τ).rows.filter
        (fun r => r.tree == some kv.1)).map (ofRow false)⟩ : KTree)) = kv
    rw [hrowsk kv hkv, List.map_map]
    have hnodes : kv.2.nodes.map (ofRow false ∘ toRow (some kv.1)) =
        kv.2.nodes :=
      map_id_of_mem _ _ (fun n hn =>
        ofRow_toRow (some kv.1) false n (hcanst kv hkv n hn))
    rw [hnodes]
  rw [hst]
  rfl

/-- C4: saving a taxonomy and loading the written version reconstructs a
taxonomy identical to the original — same tags, parent edges, names,
descriptions and sound-type bindings. -/
theorem C4_roundtrip (τ : AcousticTaxonomy) (st : VersionStore)
    (c : Option String) (h : WfTax τ) :
    load (save τ st c).1 τ.path τ.name none = Except.ok τ := by
  unfold load save
  rw [read_latest_after_write st τ.name (serialize τ) c]
  show Except.ok (deserialize τ.path (serialize τ)) = Except.ok τ
  rw [deserialize_serialize τ h]

/-- C4 witness: the scenario taxonomy survives a save and load round
trip through an empty store unchanged. -/
theorem C4_roundtrip_witness :
    load (save scnSources [] (some "this is the first version")).1
      "tax_t1.sqlite" "my-first-taxonomy" none = Except.ok scnSources :=
  C4_roundtrip scnSources [] (some "this is the first version") (by decide)

end Korus
